import Mathlib

/-!
A shallow embedding of the drag-and-drop reconciliation engine implemented in
`blocksuite/affine/widget-drag-handle/src/watchers/drag-event-watcher.ts`.

Numbers are modelled as `Int` (the code performs only additive arithmetic and
comparisons on them), serialized `xywh` strings as their deserialized `Bound`
records, JS objects and Maps as insertion-ordered association lists, and JS
Sets as duplicate-free insertion-ordered lists.  External collaborators
(schema validation, viewport conversion, DOM rectangles, canonical card
dimensions) are passed in as parameters, mirroring the services the watcher
consumes.  Asynchronous mutation sequences are modelled by the ordered list of
mutation requests the watcher issues.
-/

namespace DragWatcher

/-- A point in client or model coordinates. -/
structure Point where
  x : Int
  y : Int
deriving DecidableEq, Repr

/-- The deserialized form of a serialized xywh bound. -/
structure Bound where
  x : Int
  y : Int
  w : Int
  h : Int
deriving DecidableEq, Repr

/-- `Bound.moveDelta` from the global utils: translate, keeping the size. -/
def Bound.moveDelta (b : Bound) (dx dy : Int) : Bound :=
  { b with x := b.x + dx, y := b.y + dy }

/-- A DOM-style rectangle. -/
structure Rect where
  left : Int
  top : Int
  width : Int
  height : Int
deriving DecidableEq, Repr

/-- `Rect.fromLWTH` from the global utils (argument order: left, width, top, height). -/
def Rect.fromLWTH (left width top height : Int) : Rect :=
  { left := left, top := top, width := width, height := height }

/-- A serialized canvas element as it appears in the surface block's `elements`
record: its `id` and `type` fields, an optional bound, and the identifier keys
of its `children.json` record when the `children` field is present. -/
structure Element where
  id : String
  type : String
  xywh : Option Bound
  children : Option (List String)
deriving DecidableEq, Repr

/-- The property bag of a block snapshot, restricted to the properties the
watcher reads: the surface `elements` record, a group-like block's
`childElementIds` keys, the spatial bound and the card style. -/
structure BlockProps where
  elements : Option (List (String × Element))
  childElementIds : Option (List String)
  xywh : Option Bound
  style : Option String
deriving DecidableEq, Repr

/-- A detached block snapshot: identifier, flavour, properties and nested
child snapshots. -/
inductive BlockSnapshot where
  | mk (id : String) (flavour : String) (props : BlockProps) (children : List BlockSnapshot)

def BlockSnapshot.id : BlockSnapshot → String
  | .mk i _ _ _ => i

def BlockSnapshot.flavour : BlockSnapshot → String
  | .mk _ f _ _ => f

def BlockSnapshot.props : BlockSnapshot → BlockProps
  | .mk _ _ p _ => p

def BlockSnapshot.children : BlockSnapshot → List BlockSnapshot
  | .mk _ _ _ c => c

/-- A detached slice snapshot: the ordered top-level content. -/
structure SliceSnapshot where
  content : List BlockSnapshot

/-- Lookup in an insertion-ordered association list (JS record / Map read). -/
def alookup {β : Type} : List (String × β) → String → Option β
  | [], _ => none
  | (k, v) :: rest, key => if k = key then some v else alookup rest key

/-- JS record / Map write: update the existing key in place or append it. -/
def aset {β : Type} : List (String × β) → String → β → List (String × β)
  | [], key, v => [(key, v)]
  | (k, w) :: rest, key, v =>
    if k = key then (k, v) :: rest else (k, w) :: aset rest key v

/-- JS `Set.add`: append the value unless it is already present. -/
def setAdd (s : List String) (x : String) : List String :=
  if x ∈ s then s else s ++ [x]

/-- JS `Set.delete`. -/
def setDel (s : List String) (x : String) : List String :=
  s.filter (fun y => y ≠ x)

/-- JS `Array.indexOf`: the first index of the value, or `-1`. -/
def indexOfId (l : List String) (x : String) : Int :=
  match l.findIdx? (fun y => y = x) with
  | some i => (i : Int)
  | none => -1

/-- JS indexing `l[i]` with a possibly negative or out-of-range index. -/
def getAt? (l : List String) (i : Int) : Option String :=
  if 0 ≤ i then l[i.toNat]? else none

/-- The block-store reads the watcher performs (`std.store`): flavour of a
block, its parent, its ordered child identifiers, and block existence. -/
structure Store where
  flavourOf : String → String
  parentOf : String → Option String
  childrenOf : String → List String
  hasBlock : String → Bool

/-- The ambient services of the watcher: the store, the schema's
`safeValidate`, the DOM rectangle of a block component
(`getRectByBlockComponent`), the bounding client rectangle of a block view,
the widget scale, the `BLOCK_CHILDREN_CONTAINER_PADDING_LEFT` constant and the
current document identifier (`widget.doc.id`). -/
structure Env where
  store : Store
  safeValidate : String → String → Bool
  domRectOf : String → Rect
  viewRectOf : String → Rect
  scale : Int
  paddingLeft : Int
  docId : String

/-- `_getFallbackInsertPlace`: walk up the parent chain from the given block
and return the first block whose parent is a note block.  The source's
`while (curBlock)` loop is modelled with a fuel argument; the loop exits with
`null` when the chain ends. -/
def getFallbackInsertPlace (env : Env) : Nat → String → Option String
  | 0, _ => none
  | fuel + 1, blockId =>
    match env.store.parentOf blockId with
    | none => none
    | some parent =>
      if env.store.flavourOf parent = "affine:note" then some blockId
      else getFallbackInsertPlace env fuel parent

/-- A drop placement; the constructor `inside` renders the source's string
literal `'in'`. -/
inductive Placement where
  | inside
  | before
  | after
deriving DecidableEq, Repr

/-- The `DropResult` produced by `_getDropResult`: the placement, the
indicator rectangle and the target model (by identifier). -/
structure DropResult where
  placement : Placement
  rect : Rect
  modelId : String
deriving DecidableEq, Repr

/-- The flavour of `snapshot.content[0]`. -/
def firstFlavour (s : SliceSnapshot) : String :=
  match s.content with
  | [] => ""
  | b :: _ => b.flavour

/-- `_getDropResult`: compute the drop decision for the hovered block
`dropId`, the dragged snapshot and the pointer edge, or `none` when the drop
is rejected. -/
def getDropResult (env : Env) (fuel : Nat) (dropId : String)
    (snapshot? : Option SliceSnapshot) (fromDocId : Option String)
    (edge : String) : Option DropResult :=
  match snapshot? with
  | none => none
  | some snapshot =>
    if snapshot.content.length = 0 ∨ fromDocId = none
        ∨ env.store.flavourOf dropId = "affine:database" then
      none
    else
      let isDropOnNoteBlock := env.store.flavourOf dropId = "affine:note"
      if edge = "right" ∧ env.store.flavourOf dropId = "affine:list" then
        if snapshot.content.all (fun b => env.safeValidate b.flavour "affine:list") then
          let domRect := env.domRectOf dropId
          some { placement := Placement.inside
               , rect := Rect.fromLWTH (domRect.left + env.paddingLeft)
                   (domRect.width - env.paddingLeft)
                   (domRect.top + domRect.height) (3 * env.scale)
               , modelId := dropId }
        else
          match getFallbackInsertPlace env fuel dropId with
          | some fallbackId =>
            let domRect := env.viewRectOf fallbackId
            some { placement := Placement.after
                 , rect := Rect.fromLWTH domRect.left domRect.width
                     (domRect.top + domRect.height) (3 * env.scale)
                 , modelId := fallbackId }
          | none => none
      else
        let placement :=
          if isDropOnNoteBlock ∧ env.safeValidate (firstFlavour snapshot) "affine:note" then
            Placement.inside
          else if edge = "top" then Placement.before
          else Placement.after
        let domRect := env.domRectOf dropId
        let y := if placement = Placement.after then domRect.top + domRect.height
                 else domRect.top - 3 * env.scale
        some { placement := placement
             , rect := Rect.fromLWTH domRect.left domRect.width y (3 * env.scale)
             , modelId := dropId }

/-- The `canDrop` predicate `_makeDropTarget` installs on every drop target:
a `blocks` drag is accepted when it comes from another document or when no
identifier in its extracted model-id list is the target's own identifier. -/
def canDrop (entityIsBlocks : Bool) (fromDocId : Option String)
    (widgetDocId : String) (modelIds : List String) (viewModelId : String) : Bool :=
  if entityIsBlocks then
    decide (fromDocId ≠ some widgetDocId)
      || modelIds.all (fun id => id != viewModelId)
  else
    false

/-- The registration guard at the top of `_makeDropTarget`: `true` when a
drop target is registered for a block view with the given flavour and role in
the given mode.  A surface block, the root block in page mode, and, in
edgeless mode, a block that is not a note, not the root and not under a note,
are never registered. -/
def makeDropTarget (mode : String) (flavour : String) (role : String)
    (isUnderNote : Bool) : Bool :=
  !(decide (flavour = "affine:surface")
    || (decide (mode = "page") && decide (role = "root"))
    || (decide (mode = "edgeless") && decide (flavour ≠ "affine:note")
        && decide (role ≠ "root") && !isUnderNote))

/-- One step of the `walk` in `_onPageDrop`'s surface-ref branch: the running
largest member (as `(size, id)`) is replaced exactly when the scanned member's
area is strictly greater (`(largestElem?.size ?? 0) < size`). -/
def walkStep (cur : Option (Int × String)) (idArea : String × Int) :
    Option (Int × String) :=
  if (match cur with | some c => c.1 | none => 0) < idArea.2 then
    some (idArea.2, idArea.1)
  else
    cur

mutual

/-- The members scanned by `walk`, in scan order, each with its area
`w * h`: for a surface block, the surface elements carrying a bound followed
by the recursively scanned children; otherwise the block itself when its
props carry a bound. -/
def scanBlock : BlockSnapshot → List (String × Int)
  | .mk id flavour props children =>
    if flavour = "affine:surface" then
      (props.elements.getD []).filterMap
        (fun ev => match ev.2.xywh with
          | some b => some (ev.2.id, b.w * b.h)
          | none => none)
      ++ scanBlocks children
    else
      match props.xywh with
      | some b => [(id, b.w * b.h)]
      | none => []

def scanBlocks : List BlockSnapshot → List (String × Int)
  | [] => []
  | b :: bs => scanBlock b ++ scanBlocks bs

end

/-- `walk` run over the whole snapshot (`snapshot.content.forEach(walk)`):
the resulting `largestElem`, or `none` when it was never assigned. -/
def walkLargest (s : SliceSnapshot) : Option (Int × String) :=
  (scanBlocks s.content).foldl walkStep none

/-- The size field read by the `walkStep` comparison (`?.size ?? 0`). -/
def curSize (cur : Option (Int × String)) : Int :=
  match cur with
  | some c => c.1
  | none => 0

mutual

/-- The spatial bounds carried by a snapshot forest, in the traversal order
of `_rewriteSnapshotXYWH`: element bounds of a surface block and the bounds
of its recursively visited children, or a non-surface block's own bound. -/
def collectBoundsBlock : BlockSnapshot → List Bound
  | .mk _ flavour props children =>
    if flavour = "affine:surface" then
      (props.elements.getD []).filterMap (fun ev => ev.2.xywh)
      ++ collectBoundsList children
    else
      match props.xywh with
      | some b => [b]
      | none => []

def collectBoundsList : List BlockSnapshot → List Bound
  | [] => []
  | b :: bs => collectBoundsBlock b ++ collectBoundsList bs

end

/-- Modelled from the spec: `getSnapshotRect` (defined in the widget's
`utils`, which is not part of the reviewed sources) returns the aggregate
bounding box of all spatial bounds carried by the snapshot, and nothing when
the snapshot carries no spatial bounds at all. -/
def getSnapshotRect (s : SliceSnapshot) : Option Bound :=
  match collectBoundsList s.content with
  | [] => none
  | b :: bs =>
    some (bs.foldl (fun acc c =>
      let x := min acc.x c.x
      let y := min acc.y c.y
      let r := max (acc.x + acc.w) (c.x + c.w)
      let bot := max (acc.y + acc.h) (c.y + c.h)
      Bound.mk x y (r - x) (bot - y)) b)

/-- The card style resolved in `_rewriteSnapshotXYWH`
(`block.props.style ?? 'vertical'`). -/
def resolveStyle (props : BlockProps) : String :=
  props.style.getD "vertical"

/-- Whether a flavour gets the canonical card dimensions
(`affine:attachment` or an `affine:embed-` flavour). -/
def isCardFlavour (flavour : String) : Bool :=
  decide (flavour = "affine:attachment") || flavour.startsWith "affine:embed-"

mutual

/-- The `rewrite` closure of `_rewriteSnapshotXYWH` applied to one block:
`cw` and `ch` are the canonical `EMBED_CARD_WIDTH` / `EMBED_CARD_HEIGHT`
tables, `r` the snapshot's aggregate bounding box, `pt` the destination
point in model coordinates. -/
def rewriteBlock (cw ch : String → Int) (r : Bound) (pt : Point)
    (ignoreOriginalPos : Bool) : BlockSnapshot → BlockSnapshot
  | .mk bid flavour props children =>
    if flavour = "affine:surface" then
      let elements := props.elements.map (fun l =>
        l.map (fun ev =>
          (ev.1,
            match ev.2.xywh with
            | some b =>
              if ignoreOriginalPos then
                { ev.2 with xywh := some { b with x := pt.x, y := pt.y } }
              else
                { ev.2 with
                  xywh := some (b.moveDelta (-r.x + pt.x) (-r.y + pt.y)) }
            | none => ev.2)))
      BlockSnapshot.mk bid flavour { props with elements := elements }
        (rewriteBlocks cw ch r pt ignoreOriginalPos children)
    else
      match props.xywh with
      | none => BlockSnapshot.mk bid flavour props children
      | some b =>
        let style := resolveStyle props
        let props' := if isCardFlavour flavour then { props with style := some style } else props
        let b1 := if isCardFlavour flavour then { b with w := cw style, h := ch style } else b
        let b2 := if ignoreOriginalPos then { b1 with x := pt.x, y := pt.y }
                  else b1.moveDelta (-r.x + pt.x) (-r.y + pt.y)
        BlockSnapshot.mk bid flavour { props' with xywh := some b2 } children

def rewriteBlocks (cw ch : String → Int) (r : Bound) (pt : Point)
    (ignoreOriginalPos : Bool) : List BlockSnapshot → List BlockSnapshot
  | [] => []
  | b :: bs =>
    rewriteBlock cw ch r pt ignoreOriginalPos b
      :: rewriteBlocks cw ch r pt ignoreOriginalPos bs

end

/-- `_rewriteSnapshotXYWH`: a no-op when the snapshot carries no aggregate
rectangle, otherwise every visited bound is rewritten. -/
def rewriteSnapshotXYWH (cw ch : String → Int) (s : SliceSnapshot) (pt : Point)
    (ignoreOriginalPos : Bool) : SliceSnapshot :=
  match getSnapshotRect s with
  | none => s
  | some r => ⟨rewriteBlocks cw ch r pt ignoreOriginalPos s.content⟩

mutual

/-- The element bounds of a snapshot forest in the order visited by
`_rewriteSnapshotXYWH` (only surface blocks carry elements; the rewrite does
not descend into non-surface blocks). -/
def elemInfosBlock : BlockSnapshot → List (Option Bound)
  | .mk _ flavour props children =>
    if flavour = "affine:surface" then
      (props.elements.getD []).map (fun ev => ev.2.xywh)
      ++ elemInfosList children
    else
      []

def elemInfosList : List BlockSnapshot → List (Option Bound)
  | [] => []
  | b :: bs => elemInfosBlock b ++ elemInfosList bs

end

mutual

/-- The block-level members visited by `_rewriteSnapshotXYWH`, as
`(flavour, style, xywh)` triples, in visit order: the rewrite recurses only
through surface blocks and touches every other visited block exactly once. -/
def blockInfosBlock : BlockSnapshot → List (String × Option String × Option Bound)
  | .mk _ flavour props children =>
    if flavour = "affine:surface" then
      blockInfosList children
    else
      [(flavour, props.style, props.xywh)]

def blockInfosList : List BlockSnapshot → List (String × Option String × Option Bound)
  | [] => []
  | b :: bs => blockInfosBlock b ++ blockInfosList bs

end

/-- The drag payload fields `_onPageDrop` reads: `bsEntity.fromMode`,
`bsEntity.snapshot` and `from.docId`. -/
structure DragPayload where
  fromMode : String
  snapshot : Option SliceSnapshot
  fromDocId : Option String

/-- A mutation request issued by the watcher to the external mutation API.
`applySlice` stands for a `snapshotToSlice` application of the given content
(by identifiers) under a parent at an optional index, `addBlock` for
`store.addBlock` of a flavour whose distinguished property (`reference` or
`pageId`) is recorded, `mergeToCurDoc` for handing the snapshot to
`_mergeSnapshotToCurDoc` on the cross-document canvas path. -/
inductive Mutation where
  | applySlice (contentIds : List String) (parent : String) (index : Option Int)
  | addBlock (flavour : String) (refProp : String) (parent : String) (index : Int)
  | deleteBlock (id : String)
  | mergeToCurDoc
deriving DecidableEq, Repr

/-- The identifier of `last(snapshot.content)`. -/
def lastId (l : List BlockSnapshot) : String :=
  match l.getLast? with
  | some b => b.id
  | none => ""

/-- `_onDropNoteOnNote`: apply the dragged note's children under the target
note at the given index, then delete the dragged note shell when the store
still holds it. -/
def onDropNoteOnNote (env : Env) (snapshot : SliceSnapshot) (parent : String)
    (index : Int) : List Mutation :=
  match snapshot.content with
  | [] => []
  | first :: _ =>
    Mutation.applySlice (first.children.map BlockSnapshot.id) parent (some index)
      :: (if env.store.hasBlock first.id then [Mutation.deleteBlock first.id] else [])

/-- The parent the drop lands in (`result.placement === 'in' ? model :
store.getParent(model)`). -/
def pageDropParent (env : Env) (result : DropResult) : Option String :=
  if result.placement = Placement.inside then some result.modelId
  else env.store.parentOf result.modelId

/-- The insertion index of a page drop: `0` for an `in` placement, otherwise
the target's index among the parent's children plus one unless the placement
is `before`. -/
def pageDropIndex (env : Env) (result : DropResult) (parent : String) : Int :=
  if result.placement = Placement.inside then 0
  else indexOfId (env.store.childrenOf parent) result.modelId
    + (if result.placement = Placement.before then 0 else 1)

/-- `_onPageDrop`: resolve the drop decision, compute the parent and the
insertion index, and issue the mutation requests of the matching policy
branch; an empty list is a silent no-op. -/
def onPageDrop (env : Env) (fuel : Nat) (dropId : String) (drag : DragPayload)
    (edge : String) : List Mutation :=
  match getDropResult env fuel dropId drag.snapshot drag.fromDocId edge with
  | none => []
  | some result =>
    match drag.snapshot with
    | none => []
    | some snapshot =>
      match snapshot.content with
      | [] => []
      | first :: _ =>
        match pageDropParent env result with
        | none => []
        | some parent =>
          let children := env.store.childrenOf parent
          let index : Int := pageDropIndex env result parent
          if drag.fromMode = "gfx" ∧ env.store.flavourOf parent ≠ "affine:note" then
            []
          else if drag.fromMode = "gfx"
              ∧ ¬ (snapshot.content.all (fun b => env.safeValidate b.flavour "affine:note"))
              ∧ ¬ (snapshot.content.all (fun b => b.flavour = "affine:note")) then
            if drag.fromDocId ≠ some env.docId then
              [Mutation.mergeToCurDoc]
            else
              match walkLargest snapshot with
              | some la => [Mutation.addBlock "affine:surface-ref" la.2 parent index]
              | none => [Mutation.addBlock "affine:embed-linked-doc" env.docId parent index]
          else if env.store.flavourOf parent = "affine:note"
              ∧ first.flavour = "affine:note" then
            if parent ≠ first.id then onDropNoteOnNote env snapshot parent index
            else []
          else if (drag.fromDocId = some env.docId
                ∧ result.placement = Placement.after
                ∧ getAt? children index = some first.id)
              ∨ (result.placement = Placement.before
                ∧ getAt? children (index - 1) = some (lastId snapshot.content)) then
            []
          else
            [Mutation.applySlice (snapshot.content.map BlockSnapshot.id) parent (some index)]

/-- An action issued by `_dropAsGfxBlock`: apply a slice of block snapshots
under a parent, or create the wrapping note block with the given bound. -/
inductive GfxAction where
  | dropSlice (content : List BlockSnapshot) (parent : String)
  | addNoteBlock (bound : Bound) (parent : String)

/-- The fresh identifier of the wrapping note created by `_dropAsGfxBlock`
(the value `store.addBlock` returns). -/
def newNoteId : String := "new-note"

/-- `_dropAsGfxBlock`: partition the snapshot by whether each unit validates
as a surface child or a page child.  When every unit matches one of the two,
drop each partition (rewritten in absolute mode) under the surface or the
root; otherwise create a note with the default footprint and apply the
note-valid units inside it.  `conv` is the viewport's
`toModelCoordFromClientCoord`; note that the source converts the incoming
client point once at entry and the wrapping-note branch converts the already
converted point a second time.  The `updateBlock` calls that restore card
bounds after the asynchronous drop act on the returned slice, which lives
outside this model. -/
def dropAsGfxBlock (validate : String → String → Bool) (conv : Point → Point)
    (cw ch : String → Int) (defaultNoteWidth defaultNoteHeight : Int)
    (surfaceId rootId : String) (snapshot : SliceSnapshot) (point : Point) :
    List GfxAction :=
  let point := conv point
  let isSurface := fun (b : BlockSnapshot) => validate b.flavour "affine:surface"
  let isPage := fun (b : BlockSnapshot) => validate b.flavour "affine:page"
  let surfaceContent := snapshot.content.filter (fun b => isSurface b)
  let pageContent := snapshot.content.filter (fun b => !isSurface b && isPage b)
  let emptyContent := snapshot.content.filter (fun b => !isSurface b && !isPage b)
  if emptyContent.length = 0 then
    (if surfaceContent.length ≠ 0 then
      [GfxAction.dropSlice
        (rewriteSnapshotXYWH cw ch ⟨surfaceContent⟩ point true).content surfaceId]
    else [])
    ++ (if pageContent.length ≠ 0 then
      [GfxAction.dropSlice
        (rewriteSnapshotXYWH cw ch ⟨pageContent⟩ point true).content rootId]
    else [])
  else
    let content := snapshot.content.filter (fun b => validate b.flavour "affine:note")
    let pos := conv point
    [GfxAction.addNoteBlock
        (Bound.mk pos.x pos.y defaultNoteWidth defaultNoteHeight) rootId,
      GfxAction.dropSlice content newNoteId]

/-- The external parameters of `_mergeSnapshotToCurDoc`: the group-likeness
tests (derived from the surface's element constructors and the schema's block
models), the schema's `safeValidate`, the canonical card dimension tables used
by the coordinate rewrite, and the identifiers of the live surface block and
root block. -/
structure MergeParams where
  isGroupLikeElem : Element → Bool
  isGroupLikeBlock : String → Bool
  safeValidate : String → String → Bool
  cardWidth : String → Int
  cardHeight : String → Int
  surfaceId : String
  rootId : String

/-- The mutable maps `_mergeSnapshotToCurDoc` builds while walking the
snapshot: the container dependency tree (keyed by container identifier, with
the distinguished `root` key), the surface `elemMap` and the `blockMap`
(identifier to surface-child flag and block snapshot). -/
structure CTState where
  tree : List (String × List String)
  elemMap : List (String × Element)
  blockMap : List (String × (Bool × BlockSnapshot))

/-- `containerTree[key] = containerTree[key] ?? new Set(); containerTree[key].add(x)`. -/
def treeAdd (tree : List (String × List String)) (key x : String) :
    List (String × List String) :=
  aset tree key (setAdd ((alookup tree key).getD []) x)

/-- `containerTree['root'].delete(x)`. -/
def rootDel (tree : List (String × List String)) (x : String) :
    List (String × List String) :=
  aset tree "root" (setDel ((alookup tree "root").getD []) x)

/-- `Object.values(containerTree).every(childSet => !childSet.has(x))`. -/
def unclaimed (tree : List (String × List String)) (x : String) : Bool :=
  tree.all (fun kv => decide (x ∉ kv.2))

mutual

/-- `buildContainerTree`: walk a snapshot block.  A surface block replaces
`elemMap` with its `elements` record and walks every element: an unclaimed
group-like element contributes its `type` field to the root set (this is the
literal source expression `containerTree['root'].add(elem.type)`), its
children are claimed under its identifier and removed from the root set; a
non-group element joins the root set under its identifier.  A non-surface
block is recorded in `blockMap`, joins the root set when unclaimed, and, when
group-like, claims its `childElementIds` keys. -/
def buildContainerTree (p : MergeParams) (st : CTState) :
    BlockSnapshot → CTState
  | .mk bid flavour props children =>
    if flavour = "affine:surface" then
      let elems := props.elements.getD []
      let st1 := { st with elemMap := elems }
      let st2 := elems.foldl (fun st ev =>
        let elemId := ev.1
        let elem := ev.2
        if p.isGroupLikeElem elem then
          let st' :=
            if unclaimed st.tree elemId then
              { st with tree := treeAdd st.tree "root" elem.type }
            else st
          (elem.children.getD []).foldl (fun st childId =>
            { st with tree := rootDel (treeAdd st.tree elemId childId) childId }) st'
        else
          { st with tree := treeAdd st.tree "root" elemId }) st1
      buildContainerTreeList p st2 children
    else
      let isSurfaceChild := p.safeValidate flavour "affine:surface"
      let st1 := { st with
        blockMap := aset st.blockMap bid
          (isSurfaceChild, BlockSnapshot.mk bid flavour props children) }
      let st2 :=
        if unclaimed st1.tree bid then
          { st1 with tree := treeAdd st1.tree "root" bid }
        else st1
      if p.isGroupLikeBlock flavour then
        (props.childElementIds.getD []).foldl (fun st childId =>
          { st with tree := rootDel (treeAdd st.tree bid childId) childId }) st2
      else st2

def buildContainerTreeList (p : MergeParams) (st : CTState) :
    List BlockSnapshot → CTState
  | [] => st
  | b :: bs => buildContainerTreeList p (buildContainerTree p st b) bs

end

/-- One single-member application performed by `addInDependencyOrder`: the
member's snapshot identifier, whether it is group-like, its child-id keys
before and after the remap rewrite, the Identifier Remap Table at the moment
of the application, the fresh live identifier it produced, the parent it was
applied under, and the fuel the preceding dependency loop ran at (`depFuel`;
the source's recursion is unbounded, so a run of the source corresponds to a
run of the model in which no application ever exhausts the fuel, i.e. every
logged event has `1 ≤ depFuel`). -/
structure ApplyEvent where
  memberId : String
  groupLike : Bool
  preKeys : List String
  childKeys : List String
  remapAt : List (String × String)
  newId : String
  parentId : String
  depFuel : Nat
deriving DecidableEq, Repr

/-- The state threaded through `addInDependencyOrder`: the (mutated) maps,
the Identifier Remap Table, the ordered log of single-member applications and
a fresh-identifier counter standing for the identifiers minted by the
external mutation API. -/
structure MergeState where
  ct : CTState
  idRemap : List (String × String)
  events : List ApplyEvent
  nextId : Nat

/-- The block branch of the member application: rewrite a group-like
block's `childElementIds` keys in place against the Identifier Remap Table
(each key is replaced by its remapped identifier when the table holds it and
deleted otherwise), apply the block under the surface or the root, and
record the fresh live identifier. -/
def applyBlockMember (p : MergeParams) (depFuel : Nat) (id : String)
    (sb : Bool × BlockSnapshot) (st : MergeState) : MergeState :=
  let surfaceChild := sb.1
  let bsnap := sb.2
  let groupLike := p.isGroupLikeBlock bsnap.flavour
  let preKeys := if groupLike then bsnap.props.childElementIds.getD [] else []
  let newKeys := preKeys.filterMap (fun c => alookup st.idRemap c)
  let bsnap' :=
    if groupLike then
      BlockSnapshot.mk bsnap.id bsnap.flavour
        { bsnap.props with childElementIds := some newKeys } bsnap.children
    else bsnap
  let newId := "new-" ++ toString st.nextId
  { ct := { st.ct with blockMap := aset st.ct.blockMap id (surfaceChild, bsnap') }
  , idRemap := aset st.idRemap id newId
  , events := st.events
      ++ [⟨id, groupLike, preKeys, newKeys, st.idRemap, newId,
           if surfaceChild then p.surfaceId else p.rootId, depFuel⟩]
  , nextId := st.nextId + 1 }

/-- The element branch of the member application: rewrite the element's
`children.json` keys in place against the Identifier Remap Table, add the
element to the surface, and record the fresh live identifier. -/
def applyElemMember (p : MergeParams) (depFuel : Nat) (id : String)
    (elem : Element) (st : MergeState) : MergeState :=
  let preKeys := elem.children.getD []
  let newKeys := preKeys.filterMap (fun c => alookup st.idRemap c)
  let elem' :=
    if elem.children.isSome then { elem with children := some newKeys } else elem
  let newId := "new-" ++ toString st.nextId
  { ct := { st.ct with elemMap := aset st.ct.elemMap id elem' }
  , idRemap := aset st.idRemap id newId
  , events := st.events
      ++ [⟨id, p.isGroupLikeElem elem, preKeys, newKeys, st.idRemap, newId,
           p.surfaceId, depFuel⟩]
  , nextId := st.nextId + 1 }

/-- The body of `addInDependencyOrder` after the recursive dependency pass:
apply the member itself — the block branch for an entry of `blockMap`, the
element branch for an entry of `elemMap`, and nothing for an identifier that
names no member. -/
def applyMember (p : MergeParams) (depFuel : Nat) (id : String)
    (st : MergeState) : MergeState :=
  match alookup st.ct.blockMap id with
  | some sb => applyBlockMember p depFuel id sb st
  | none =>
    match alookup st.ct.elemMap id with
    | some elem => applyElemMember p depFuel id elem st
    | none => st

/-- `addInDependencyOrder`: first recursively apply every dependency recorded
in the container tree (the sequential `for (const childId of
containerTree[id])` loop is a fold), then apply the member itself.  The
source's `async`/`await` recursion is modelled with a fuel argument (one fuel
level per recursion depth). -/
def addInDependencyOrder (p : MergeParams) : Nat → String → MergeState → MergeState
  | 0, _, st => st
  | fuel + 1, id, st =>
    let st1 :=
      match alookup st.ct.tree id with
      | some childIds =>
        childIds.foldl (fun st c => addInDependencyOrder p fuel c st) st
      | none => st
    applyMember p fuel id st1

/-- The sequential application of `addInDependencyOrder` to a list of
members (the loop over the container tree's root set). -/
def addDeps (p : MergeParams) (fuel : Nat) (ids : List String)
    (st : MergeState) : MergeState :=
  ids.foldl (fun st c => addInDependencyOrder p fuel c st) st

/-- `_mergeSnapshotToCurDoc`: resolve the destination point (from the current
aggregate element bounds when absent, through the viewport conversion `conv`
otherwise), rewrite the snapshot's bounds, build the container dependency
tree and apply every root in dependency order.  Returns the final state,
whose `idRemap` field is the Identifier Remap Table the source returns. -/
def mergeSnapshotToCurDoc (p : MergeParams) (conv : Point → Point)
    (elementsBound : Bound) (fuel : Nat) (snapshot : SliceSnapshot)
    (point? : Option Point) : MergeState :=
  let point :=
    match point? with
    | none => Point.mk (elementsBound.x + elementsBound.w)
        (elementsBound.y + elementsBound.h / 2)
    | some pt => conv pt
  let snapshot := rewriteSnapshotXYWH p.cardWidth p.cardHeight snapshot point false
  let ct := buildContainerTreeList p
    { tree := [("root", [])], elemMap := [], blockMap := [] } snapshot.content
  let st0 : MergeState := { ct := ct, idRemap := [], events := [], nextId := 0 }
  addDeps p fuel ((alookup ct.tree "root").getD []) st0

/-- Modelled from the spec: an `in` drop decision on a list item is applied
"appended at the end of the hovered item's children"; the application
pipeline (the store's `snapshotToSlice` with the `reorderList` transformer
middleware) is outside the reviewed sources. -/
def applyInsidePlacement (hoveredChildren units : List String) : List String :=
  hoveredChildren ++ units

/-- The relative rewrite of a member bound: the aggregate box's top-left
moves to the destination point, preserving relative layout. -/
def relocateBound (r : Bound) (pt : Point) (b : Bound) : Bound :=
  ⟨b.x - r.x + pt.x, b.y - r.y + pt.y, b.w, b.h⟩

/-- The absolute rewrite of a member bound: the position collapses onto the
destination point. -/
def absBound (pt : Point) (b : Bound) : Bound :=
  ⟨pt.x, pt.y, b.w, b.h⟩

/-- The effect of `_rewriteSnapshotXYWH` on one visited block-level member
`(flavour, style, xywh)`: a member without a bound is untouched; a card-like
member's style is resolved and its bound gets the canonical card dimensions;
then the bound is moved by the given position rewrite. -/
def rewriteBlockInfo (cw ch : String → Int) (move : Bound → Bound) :
    String × Option String × Option Bound → String × Option String × Option Bound
  | (fl, st, none) => (fl, st, none)
  | (fl, st, some b) =>
    let style := st.getD "vertical"
    let st' := if isCardFlavour fl then some style else st
    let b1 := if isCardFlavour fl then { b with w := cw style, h := ch style } else b
    (fl, st', some (move b1))

/-- The position rewrite selected by the `ignoreOriginalPos` flag: absolute
collapse onto the point, or relative relocation against the aggregate box. -/
def moveOf (r : Bound) (pt : Point) (ig : Bool) : Bound → Bound :=
  fun b => if ig then absBound pt b else relocateBound r pt b

/-- The invariant every logged single-member application satisfies: the
child-id keys the member carried at its application are exactly the original
keys pushed through the Identifier Remap Table as it stood at that moment
(each resolvable key remapped, every other key deleted). -/
def EventOK (e : ApplyEvent) : Prop :=
  e.childKeys = e.preKeys.filterMap (fun c => alookup e.remapAt c)

/-- Whether an identifier names a member of the snapshot, i.e. has an entry
in the merge's `blockMap` or `elemMap`.  The domains of both maps are fixed
by `buildContainerTree` and never change during the apply phase. -/
def isMember (ct : CTState) (d : String) : Bool :=
  (alookup ct.blockMap d).isSome || (alookup ct.elemMap d).isSome

/-- The global invariant of the apply phase, carried through
`addInDependencyOrder`:
every Identifier Remap Table entry was written by a logged application of
that member; and every logged event satisfies the remap-rewrite equation
(`EventOK`), has — whenever its dependency loop still had fuel — every
member-dependency of its container recorded in the Identifier Remap Table as
it stood at the moment of the application, and every entry of that table
snapshot traces back to an application logged strictly earlier. -/
def MergeInv (st : MergeState) : Prop :=
  (∀ k v, (k, v) ∈ st.idRemap → ∃ e ∈ st.events, e.memberId = k ∧ e.newId = v)
  ∧ (∀ (j : Nat) (e : ApplyEvent), st.events[j]? = some e →
      EventOK e
      ∧ (1 ≤ e.depFuel →
          ∀ d ∈ (alookup st.ct.tree e.memberId).getD [],
            isMember st.ct d = true → (alookup e.remapAt d).isSome = true)
      ∧ (∀ d v, alookup e.remapAt d = some v →
          ∃ i : Nat, i < j ∧ ∃ e', st.events[i]? = some e'
            ∧ e'.memberId = d ∧ e'.newId = v))

/-! ### Concrete instances used by the witnesses and counterexamples -/

/-- Empty property bag. -/
def noProps : BlockProps := { elements := none, childElementIds := none, xywh := none, style := none }

/-- Merge parameters for concrete runs: elements of type `group` and blocks
of flavour `affine:frame` are the group-like members; nothing validates as a
surface child. -/
def pEx : MergeParams :=
  { isGroupLikeElem := fun e => decide (e.type = "group")
  , isGroupLikeBlock := fun fl => decide (fl = "affine:frame")
  , safeValidate := fun _ _ => false
  , cardWidth := fun _ => 0
  , cardHeight := fun _ => 0
  , surfaceId := "surface"
  , rootId := "root-block" }

/-- A top-level group-like canvas element with no containing parent. -/
def groupElemEx : Element := { id := "g1", type := "group", xywh := none, children := some [] }

/-- A surface snapshot holding only `groupElemEx`. -/
def snapshotC2 : SliceSnapshot :=
  ⟨[.mk "s1" "affine:surface"
      { elements := some [("g1", groupElemEx)]
      , childElementIds := none, xywh := none, style := none } []]⟩

/-- The merge of `snapshotC2` into an empty destination. -/
def mergeC2 : MergeState :=
  mergeSnapshotToCurDoc pEx (fun pt => pt) ⟨0, 0, 0, 0⟩ 5 snapshotC2 (some ⟨0, 0⟩)

/-- A group-like frame block with one claimed child. -/
def snapshotC1 : SliceSnapshot :=
  ⟨[.mk "f1" "affine:frame"
      { elements := none, childElementIds := some ["c1"], xywh := none, style := none } [],
    .mk "c1" "affine:paragraph" noProps []]⟩

/-- The merge of `snapshotC1` into an empty destination. -/
def mergeC1 : MergeState :=
  mergeSnapshotToCurDoc pEx (fun pt => pt) ⟨0, 0, 0, 0⟩ 3 snapshotC1 (some ⟨0, 0⟩)

/-- The application of the frame container inside `mergeC1`: it is the
second logged event, its dependency loop ran at fuel 2, and the remap table
at its application already held the child's new live identifier. -/
def eventC1 : ApplyEvent :=
  ⟨"f1", true, ["c1"], ["new-0"], [("c1", "new-0")], "new-1", "root-block", 2⟩

/-- A surface snapshot whose scanned member areas are 10, 30, 30, 20. -/
def snapshotC4 : SliceSnapshot :=
  ⟨[.mk "s1" "affine:surface"
      { elements := some
          [ ("e1", ⟨"e1", "shape", some ⟨0, 0, 1, 10⟩, none⟩)
          , ("e2", ⟨"e2", "shape", some ⟨0, 0, 5, 6⟩, none⟩)
          , ("e3", ⟨"e3", "shape", some ⟨0, 0, 6, 5⟩, none⟩)
          , ("e4", ⟨"e4", "shape", some ⟨0, 0, 4, 5⟩, none⟩) ]
      , childElementIds := none, xywh := none, style := none } []]⟩

/-- A non-identity client-to-model conversion. -/
def convEx : Point → Point := fun pt => ⟨pt.x + 1, pt.y + 1⟩

/-- A single block that validates as neither a surface child, a page child
nor a note child. -/
def snapshotC8 : SliceSnapshot := ⟨[.mk "d1" "affine:database" noProps []]⟩

/-- A schema in which nothing validates. -/
def validateNothing : String → String → Bool := fun _ _ => false

/-- A store of one note (`note1`) with two paragraphs `p1`, `p2`. -/
def storeC5 : Store :=
  { flavourOf := fun id => if id = "note1" then "affine:note" else "affine:paragraph"
  , parentOf := fun id => if id = "p1" ∨ id = "p2" then some "note1" else none
  , childrenOf := fun id => if id = "note1" then ["p1", "p2"] else []
  , hasBlock := fun _ => true }

/-- An environment around `storeC5`. -/
def envC5 : Env :=
  { store := storeC5, safeValidate := fun _ _ => false
  , domRectOf := fun _ => ⟨0, 0, 10, 10⟩, viewRectOf := fun _ => ⟨0, 0, 10, 10⟩
  , scale := 1, paddingLeft := 26, docId := "doc1" }

/-- The snapshot of the dragged paragraph `p2`. -/
def snapC5 : SliceSnapshot := ⟨[.mk "p2" "affine:paragraph" noProps []]⟩

/-- Dragging the paragraph `p2` inside the same document. -/
def dragC5 : DragPayload :=
  { fromMode := "block", snapshot := some snapC5, fromDocId := some "doc1" }

/-- The decision `_getDropResult` computes for dropping on the lower edge of
`p1` in `envC5`. -/
def resultC5 : DropResult :=
  { placement := Placement.after, rect := ⟨0, 10, 10, 3⟩, modelId := "p1" }

/-- A store of two notes `noteA` (with children `q1`, `q2`) and `noteB`. -/
def storeC6 : Store :=
  { flavourOf := fun id => if id = "noteA" ∨ id = "noteB" then "affine:note" else "affine:paragraph"
  , parentOf := fun _ => none
  , childrenOf := fun id => if id = "noteA" then ["q1", "q2"] else []
  , hasBlock := fun _ => true }

/-- An environment around `storeC6` in which a note validates under a note. -/
def envC6 : Env :=
  { store := storeC6
  , safeValidate := fun fl pa => decide (fl = "affine:note" ∧ pa = "affine:note")
  , domRectOf := fun _ => ⟨0, 0, 10, 10⟩, viewRectOf := fun _ => ⟨0, 0, 10, 10⟩
  , scale := 1, paddingLeft := 26, docId := "doc1" }

/-- The snapshot of the dragged note `noteB`, whose only child is the
paragraph `p1`. -/
def snapC6 : SliceSnapshot :=
  ⟨[.mk "noteB" "affine:note" noProps [.mk "p1" "affine:paragraph" noProps []]]⟩

/-- Dragging the note `noteB` inside the same document. -/
def dragC6 : DragPayload :=
  { fromMode := "block", snapshot := some snapC6, fromDocId := some "doc1" }

/-- The decision `_getDropResult` computes for dropping `dragC6` on `noteA`
in `envC6`. -/
def resultC6 : DropResult :=
  { placement := Placement.inside, rect := ⟨0, -3, 10, 3⟩, modelId := "noteA" }

/-- A store in which the list item `l1` sits under `para1` under the note
`note1`; `l1` and `l2` are list blocks. -/
def storeC7 : Store :=
  { flavourOf := fun id =>
      if id = "note1" then "affine:note"
      else if id = "l1" ∨ id = "l2" then "affine:list"
      else "affine:paragraph"
  , parentOf := fun id =>
      if id = "l1" then some "para1"
      else if id = "para1" then some "note1" else none
  , childrenOf := fun _ => []
  , hasBlock := fun _ => true }

/-- An environment around `storeC7` in which only list blocks validate under
a list. -/
def envC7 : Env :=
  { store := storeC7
  , safeValidate := fun fl pa => decide (fl = "affine:list" ∧ pa = "affine:list")
  , domRectOf := fun _ => ⟨0, 0, 100, 20⟩, viewRectOf := fun _ => ⟨0, 0, 100, 40⟩
  , scale := 1, paddingLeft := 26, docId := "doc1" }

/-- A snapshot of one list block. -/
def snapshotC7list : SliceSnapshot := ⟨[.mk "l2" "affine:list" noProps []]⟩

/-- A snapshot of one paragraph block (which does not validate under a
list). -/
def snapshotC7para : SliceSnapshot := ⟨[.mk "q9" "affine:paragraph" noProps []]⟩

/-- An environment whose every block is database-flavoured. -/
def envC9 : Env :=
  { envC5 with store := { storeC5 with flavourOf := fun _ => "affine:database" } }

/-- A snapshot carrying a surface element, a paragraph and an attachment,
with aggregate bounding box at the origin of size 15 by 15. -/
def snapshotC3 : SliceSnapshot :=
  ⟨[.mk "s1" "affine:surface"
      { elements := some [("e1", ⟨"e1", "shape", some ⟨0, 0, 4, 4⟩, none⟩)]
      , childElementIds := none, xywh := none, style := none } [],
    .mk "b1" "affine:paragraph"
      { elements := none, childElementIds := none
      , xywh := some ⟨5, 5, 10, 10⟩, style := none } [],
    .mk "a1" "affine:attachment"
      { elements := none, childElementIds := none
      , xywh := some ⟨7, 8, 2, 2⟩, style := none } []]⟩

/-! ### Theorems -/

/-- A successful association-list lookup comes from a member of the list. -/
theorem alookup_mem {β : Type} :
    ∀ (l : List (String × β)) (k : String) (v : β),
      alookup l k = some v → (k, v) ∈ l := by
  intro l
  induction l with
  | nil => intro k v h; simp [alookup] at h
  | cons p rest ih =>
    intro k v h
    rw [alookup] at h
    by_cases hk : p.1 = k
    · rw [if_pos hk] at h
      cases h
      subst hk
      exact List.mem_cons_self _ _
    · rw [if_neg hk] at h
      exact List.mem_cons_of_mem _ (ih k v h)

/-- C10: for a block-type drag whose source document is the target's
document, the drop-target accept predicate rejects any target whose
identifier appears in the dragged snapshot's extracted model-id list, and
for a drag from a different document it accepts regardless of that list. -/
theorem canDrop_same_doc_self_exclusion (fromDocId : Option String)
    (widgetDocId : String) (modelIds : List String) (viewModelId : String) :
    (fromDocId = some widgetDocId → viewModelId ∈ modelIds →
      canDrop true fromDocId widgetDocId modelIds viewModelId = false)
    ∧ (fromDocId ≠ some widgetDocId →
      canDrop true fromDocId widgetDocId modelIds viewModelId = true) := by
  constructor
  · intro hdoc hmem
    have hall : modelIds.all (fun id => id != viewModelId) = false := by
      cases h : modelIds.all (fun id => id != viewModelId) with
      | false => rfl
      | true =>
        exfalso
        have := List.all_eq_true.mp h viewModelId hmem
        simp at this
    simp [canDrop, hdoc, hall]
  · intro hdoc
    simp [canDrop, hdoc]

/-- C10 witness: a same-document drag is rejected on a selected target and a
cross-document drag is accepted on it. -/
theorem canDrop_same_doc_self_exclusion_witness :
    canDrop true (some "d") "d" ["a", "b"] "a" = false
    ∧ canDrop true (some "e") "d" ["a", "b"] "a" = true :=
  ⟨(canDrop_same_doc_self_exclusion (some "d") "d" ["a", "b"] "a").1 rfl
      (by simp),
    (canDrop_same_doc_self_exclusion (some "e") "d" ["a", "b"] "a").2
      (by simp)⟩

/-- C9: no drop decision is produced when the hovered block is the surface
container (such a view is never registered as a drop target), when the
dragged snapshot is missing or empty, when the drag carries no origin
information, or when the hovered block is a database block. -/
theorem drop_rejections (env : Env) (fuel : Nat) (dropId : String)
    (fromDocId : Option String) (edge mode role : String) (isUnderNote : Bool)
    (snapshot? : Option SliceSnapshot) :
    makeDropTarget mode "affine:surface" role isUnderNote = false
    ∧ getDropResult env fuel dropId none fromDocId edge = none
    ∧ getDropResult env fuel dropId (some ⟨[]⟩) fromDocId edge = none
    ∧ getDropResult env fuel dropId snapshot? none edge = none
    ∧ (env.store.flavourOf dropId = "affine:database" →
        getDropResult env fuel dropId snapshot? fromDocId edge = none) := by
  refine ⟨by simp [makeDropTarget], rfl, by simp [getDropResult], ?_, ?_⟩
  · cases snapshot? with
    | none => rfl
    | some s => simp [getDropResult]
  · intro h
    cases snapshot? with
    | none => rfl
    | some s => simp [getDropResult, h]

/-- C9 witness: the rejection evaluated at a concrete database-flavoured
hovered block. -/
theorem drop_rejections_witness :
    getDropResult envC9 5 "db1" (some ⟨[.mk "p9" "affine:paragraph" noProps []]⟩)
        (some "doc1") "bottom" = none :=
  (drop_rejections envC9 5 "db1" (some "doc1") "bottom" "page" "content" false
    (some ⟨[.mk "p9" "affine:paragraph" noProps []]⟩)).2.2.2.2 rfl

/-- C2 (failing input): merging a snapshot whose surface holds one top-level
group-like element `g1` of type `group`.  `buildContainerTree` records the
element's `type` string (`group`) in the root set instead of its identifier
(`g1`), so iterating the root set matches no member: the merge applies
nothing and the Identifier Remap Table stays empty, while the claim (and the
function's own documentation, which promises the snapshot is merged with all
containers created after their children) requires the unclaimed group to be a
root under its own identifier and to be applied. -/
theorem buildContainerTree_root_uses_type_not_id :
    alookup mergeC2.ct.tree "root" = some ["group"]
    ∧ mergeC2.events = []
    ∧ mergeC2.idRemap = []
    ∧ alookup mergeC2.ct.elemMap "g1" = some groupElemEx := by
  refine ⟨rfl, rfl, rfl, rfl⟩

/-- The `applyMember` step preserves the per-event remap invariant: it only
appends an event whose recorded child keys are the pre-rewrite keys pushed
through the Identifier Remap Table at that moment. -/
theorem applyMember_events_ok (p : MergeParams) (f : Nat) (id : String)
    (st : MergeState) (h : ∀ e ∈ st.events, EventOK e) :
    ∀ e ∈ (applyMember p f id st).events, EventOK e := by
  intro e he
  unfold applyMember at he
  cases hb : alookup st.ct.blockMap id with
  | some sb =>
    rw [hb] at he
    simp only [applyBlockMember, List.mem_append, List.mem_singleton] at he
    cases he with
    | inl hold => exact h e hold
    | inr hnew => rw [hnew]; rfl
  | none =>
    rw [hb] at he
    cases hel : alookup st.ct.elemMap id with
    | some elem =>
      rw [hel] at he
      simp only [applyElemMember, List.mem_append, List.mem_singleton] at he
      cases he with
      | inl hold => exact h e hold
      | inr hnew => rw [hnew]; rfl
    | none =>
      rw [hel] at he
      exact h e he

/-- `addInDependencyOrder` preserves the per-event remap invariant. -/
theorem addInDependencyOrder_events_ok (p : MergeParams) :
    ∀ fuel : Nat, ∀ id st, (∀ e ∈ st.events, EventOK e) →
      ∀ e ∈ (addInDependencyOrder p fuel id st).events, EventOK e := by
  intro fuel
  induction fuel with
  | zero =>
    intro id st h
    exact h
  | succ f ih =>
    have hmany : ∀ ids st, (∀ e ∈ st.events, EventOK e) →
        ∀ e ∈ (List.foldl (fun st c => addInDependencyOrder p f c st) st ids).events,
          EventOK e := by
      intro ids
      induction ids with
      | nil => intro st h; exact h
      | cons c cs ihl =>
        intro st h
        exact ihl _ (ih c st h)
    intro id st h
    cases ht : alookup st.ct.tree id with
    | some childIds =>
      have : addInDependencyOrder p (f + 1) id st
          = applyMember p f id
              (List.foldl (fun st c => addInDependencyOrder p f c st) st childIds) := by
        rw [addInDependencyOrder, ht]
      rw [this]
      exact applyMember_events_ok p f id _ (hmany childIds st h)
    | none =>
      have : addInDependencyOrder p (f + 1) id st = applyMember p f id st := by
        rw [addInDependencyOrder, ht]
      rw [this]
      exact applyMember_events_ok p f id _ h

/-- The top-level root loop of the merge preserves the invariant. -/
theorem addDeps_events_ok (p : MergeParams) (fuel : Nat) :
    ∀ ids st, (∀ e ∈ st.events, EventOK e) →
      ∀ e ∈ (addDeps p fuel ids st).events, EventOK e := by
  intro ids
  induction ids with
  | nil => intro st h; exact h
  | cons c cs ihl =>
    intro st h
    exact ihl _ (addInDependencyOrder_events_ok p fuel c st h)

/-- Every single-member application logged by `_mergeSnapshotToCurDoc`
satisfies the remap invariant. -/
theorem mergeSnapshotToCurDoc_events_ok (p : MergeParams) (conv : Point → Point)
    (elementsBound : Bound) (fuel : Nat) (snapshot : SliceSnapshot)
    (point? : Option Point) :
    ∀ e ∈ (mergeSnapshotToCurDoc p conv elementsBound fuel snapshot point?).events,
      EventOK e := by
  unfold mergeSnapshotToCurDoc
  exact addDeps_events_ok p fuel _ _ (by intro e he; simp at he)

/-- `alookup` after an `aset` write. -/
theorem alookup_aset {β : Type} :
    ∀ (l : List (String × β)) (k : String) (v : β) (k' : String),
      alookup (aset l k v) k' = if k' = k then some v else alookup l k' := by
  intro l
  induction l with
  | nil =>
    intro k v k'
    simp only [aset, alookup]
    by_cases h : k' = k
    · rw [if_pos (h.symm), if_pos h]
    · rw [if_neg (fun hh => h hh.symm), if_neg h]
  | cons pr rest ih =>
    obtain ⟨a, b⟩ := pr
    intro k v k'
    simp only [aset]
    by_cases h1 : a = k
    · rw [if_pos h1]
      simp only [alookup]
      by_cases h2 : a = k'
      · rw [if_pos h2, if_pos (by rw [← h2, h1])]
      · rw [if_neg h2]
        by_cases h3 : k' = k
        · exact absurd (h1.trans h3.symm) h2
        · rw [if_neg h3, if_neg h2]
    · rw [if_neg h1]
      simp only [alookup]
      by_cases h2 : a = k'
      · rw [if_pos h2, if_neg (fun hh => h1 (h2.trans hh)), if_pos h2]
      · rw [if_neg h2, ih k v k', if_neg h2]

/-- `aset` never drops a key: a present lookup stays present. -/
theorem alookup_aset_isSome {β : Type} (l : List (String × β)) (k0 : String)
    (v : β) (k : String) (h : (alookup l k).isSome = true) :
    (alookup (aset l k0 v) k).isSome = true := by
  rw [alookup_aset]
  by_cases hk : k = k0
  · rw [if_pos hk]; rfl
  · rw [if_neg hk]; exact h

/-- The written key is present after `aset`. -/
theorem alookup_aset_self {β : Type} (l : List (String × β)) (k0 : String)
    (v : β) : (alookup (aset l k0 v) k0).isSome = true := by
  rw [alookup_aset, if_pos rfl]
  rfl

/-- Everything in an `aset` result was there before or is the written pair. -/
theorem mem_aset {β : Type} :
    ∀ (l : List (String × β)) (k : String) (v : β) (x : String × β),
      x ∈ aset l k v → x ∈ l ∨ x = (k, v) := by
  intro l
  induction l with
  | nil =>
    intro k v x hx
    simp [aset] at hx
    exact Or.inr hx
  | cons p rest ih =>
    intro k v x hx
    by_cases h1 : p.1 = k
    · rw [aset, if_pos h1] at hx
      rcases List.mem_cons.mp hx with hx | hx
      · subst h1
        exact Or.inr (by rw [hx])
      · exact Or.inl (List.mem_cons_of_mem _ hx)
    · rw [aset, if_neg h1] at hx
      rcases List.mem_cons.mp hx with hx | hx
      · exact Or.inl (by rw [hx]; exact List.mem_cons_self _ _)
      · rcases ih k v x hx with hx | hx
        · exact Or.inl (List.mem_cons_of_mem _ hx)
        · exact Or.inr hx

/-- `applyMember` leaves the container dependency tree untouched. -/
theorem applyMember_tree (p : MergeParams) (f : Nat) (id : String)
    (st : MergeState) : (applyMember p f id st).ct.tree = st.ct.tree := by
  unfold applyMember
  cases h1 : alookup st.ct.blockMap id with
  | some sb => rfl
  | none =>
    cases h2 : alookup st.ct.elemMap id with
    | some elem => rfl
    | none => rfl

/-- Overwriting an existing `blockMap` entry does not change which
identifiers are members. -/
theorem isMember_aset_block (ct : CTState) (id : String)
    (x : Bool × BlockSnapshot) (d : String)
    (h : (alookup ct.blockMap id).isSome = true) :
    isMember { ct with blockMap := aset ct.blockMap id x } d = isMember ct d := by
  show ((alookup (aset ct.blockMap id x) d).isSome || (alookup ct.elemMap d).isSome)
      = ((alookup ct.blockMap d).isSome || (alookup ct.elemMap d).isSome)
  rw [alookup_aset]
  by_cases hk : d = id
  · rw [if_pos hk, hk, h]
    rfl
  · rw [if_neg hk]

/-- Overwriting an existing `elemMap` entry does not change which
identifiers are members. -/
theorem isMember_aset_elem (ct : CTState) (id : String) (x : Element)
    (d : String) (h : (alookup ct.elemMap id).isSome = true) :
    isMember { ct with elemMap := aset ct.elemMap id x } d = isMember ct d := by
  show ((alookup ct.blockMap d).isSome || (alookup (aset ct.elemMap id x) d).isSome)
      = ((alookup ct.blockMap d).isSome || (alookup ct.elemMap d).isSome)
  rw [alookup_aset]
  by_cases hk : d = id
  · rw [if_pos hk, hk, h]
    rfl
  · rw [if_neg hk]

/-- `applyMember` preserves membership of every identifier in the member
maps (it only overwrites existing entries). -/
theorem applyMember_isMember (p : MergeParams) (f : Nat) (id : String)
    (st : MergeState) (d : String) :
    isMember (applyMember p f id st).ct d = isMember st.ct d := by
  unfold applyMember
  cases h1 : alookup st.ct.blockMap id with
  | some sb =>
    exact isMember_aset_block st.ct id _ d (by rw [h1]; rfl)
  | none =>
    cases h2 : alookup st.ct.elemMap id with
    | some elem =>
      exact isMember_aset_elem st.ct id _ d (by rw [h2]; rfl)
    | none => rfl

/-- `applyMember` never removes an Identifier Remap Table entry. -/
theorem applyMember_remapMono (p : MergeParams) (f : Nat) (id : String)
    (st : MergeState) (k : String)
    (h : (alookup st.idRemap k).isSome = true) :
    (alookup (applyMember p f id st).idRemap k).isSome = true := by
  unfold applyMember
  cases h1 : alookup st.ct.blockMap id with
  | some sb =>
    exact alookup_aset_isSome st.idRemap id _ k h
  | none =>
    cases h2 : alookup st.ct.elemMap id with
    | some elem =>
      exact alookup_aset_isSome st.idRemap id _ k h
    | none => exact h

/-- `applyMember` on a member of the snapshot records that member in the
Identifier Remap Table. -/
theorem applyMember_records (p : MergeParams) (f : Nat) (id : String)
    (st : MergeState) (hm : isMember st.ct id = true) :
    (alookup (applyMember p f id st).idRemap id).isSome = true := by
  unfold applyMember
  cases h1 : alookup st.ct.blockMap id with
  | some sb =>
    exact alookup_aset_self st.idRemap id _
  | none =>
    cases h2 : alookup st.ct.elemMap id with
    | some elem =>
      exact alookup_aset_self st.idRemap id _
    | none =>
      exfalso
      unfold isMember at hm
      rw [h1, h2] at hm
      simp at hm

/-- `addInDependencyOrder` leaves the tree untouched, preserves membership
in the member maps and never removes an Identifier Remap Table entry. -/
theorem addInDependencyOrder_state (p : MergeParams) :
    ∀ (fuel : Nat) (id : String) (st : MergeState),
      (addInDependencyOrder p fuel id st).ct.tree = st.ct.tree
      ∧ (∀ d, isMember (addInDependencyOrder p fuel id st).ct d = isMember st.ct d)
      ∧ (∀ k, (alookup st.idRemap k).isSome = true →
          (alookup (addInDependencyOrder p fuel id st).idRemap k).isSome = true) := by
  intro fuel
  induction fuel with
  | zero => intro id st; exact ⟨rfl, fun d => rfl, fun k h => h⟩
  | succ f ih =>
    have hfold : ∀ (ids : List String) (st : MergeState),
        (List.foldl (fun st c => addInDependencyOrder p f c st) st ids).ct.tree
            = st.ct.tree
        ∧ (∀ d, isMember
              (List.foldl (fun st c => addInDependencyOrder p f c st) st ids).ct d
            = isMember st.ct d)
        ∧ (∀ k, (alookup st.idRemap k).isSome = true →
            (alookup (List.foldl (fun st c => addInDependencyOrder p f c st)
                st ids).idRemap k).isSome = true) := by
      intro ids
      induction ids with
      | nil => intro st; exact ⟨rfl, fun d => rfl, fun k h => h⟩
      | cons c cs ihl =>
        intro st
        obtain ⟨h1, h2, h3⟩ := ih c st
        obtain ⟨g1, g2, g3⟩ := ihl (addInDependencyOrder p f c st)
        exact ⟨g1.trans h1, fun d => (g2 d).trans (h2 d),
          fun k hk => g3 k (h3 k hk)⟩
    intro id st
    cases ht : alookup st.ct.tree id with
    | some childIds =>
      have heq : addInDependencyOrder p (f + 1) id st
          = applyMember p f id
              (List.foldl (fun st c => addInDependencyOrder p f c st) st childIds) := by
        rw [addInDependencyOrder, ht]
      rw [heq]
      obtain ⟨h1, h2, h3⟩ := hfold childIds st
      exact ⟨(applyMember_tree p f id _).trans h1,
        fun d => (applyMember_isMember p f id _ d).trans (h2 d),
        fun k hk => applyMember_remapMono p f id _ k (h3 k hk)⟩
    | none =>
      have heq : addInDependencyOrder p (f + 1) id st = applyMember p f id st := by
        rw [addInDependencyOrder, ht]
      rw [heq]
      exact ⟨applyMember_tree p f id st,
        fun d => applyMember_isMember p f id st d,
        fun k hk => applyMember_remapMono p f id st k hk⟩

/-- The dependency loop at a fixed fuel enjoys the same state facts. -/
theorem foldAddInDep_state (p : MergeParams) (f : Nat) :
    ∀ (ids : List String) (st : MergeState),
      (List.foldl (fun st c => addInDependencyOrder p f c st) st ids).ct.tree
          = st.ct.tree
      ∧ (∀ d, isMember
            (List.foldl (fun st c => addInDependencyOrder p f c st) st ids).ct d
          = isMember st.ct d)
      ∧ (∀ k, (alookup st.idRemap k).isSome = true →
          (alookup (List.foldl (fun st c => addInDependencyOrder p f c st)
              st ids).idRemap k).isSome = true) := by
  intro ids
  induction ids with
  | nil => intro st; exact ⟨rfl, fun d => rfl, fun k h => h⟩
  | cons c cs ihl =>
    intro st
    obtain ⟨h1, h2, h3⟩ := addInDependencyOrder_state p f c st
    obtain ⟨g1, g2, g3⟩ := ihl (addInDependencyOrder p f c st)
    exact ⟨g1.trans h1, fun d => (g2 d).trans (h2 d), fun k hk => g3 k (h3 k hk)⟩

/-- With fuel left, `addInDependencyOrder` on a member of the snapshot
records that member in the Identifier Remap Table. -/
theorem addInDependencyOrder_records (p : MergeParams) :
    ∀ (f : Nat), 1 ≤ f → ∀ (c : String) (st : MergeState),
      isMember st.ct c = true →
      (alookup (addInDependencyOrder p f c st).idRemap c).isSome = true := by
  intro f hf c st hm
  cases f with
  | zero => exact absurd hf (by decide)
  | succ f' =>
    cases ht : alookup st.ct.tree c with
    | some childIds =>
      have heq : addInDependencyOrder p (f' + 1) c st
          = applyMember p f' c
              (List.foldl (fun st c => addInDependencyOrder p f' c st) st childIds) := by
        rw [addInDependencyOrder, ht]
      rw [heq]
      apply applyMember_records
      rw [(foldAddInDep_state p f' childIds st).2.1 c]
      exact hm
    | none =>
      have heq : addInDependencyOrder p (f' + 1) c st = applyMember p f' c st := by
        rw [addInDependencyOrder, ht]
      rw [heq]
      exact applyMember_records p f' c st hm

/-- After the dependency loop every listed member of the snapshot is
recorded in the Identifier Remap Table. -/
theorem foldAddInDep_recordsAll (p : MergeParams) (f : Nat) (hf : 1 ≤ f) :
    ∀ (ids : List String) (st : MergeState), ∀ c ∈ ids,
      isMember st.ct c = true →
      (alookup (List.foldl (fun st c => addInDependencyOrder p f c st)
          st ids).idRemap c).isSome = true := by
  intro ids
  induction ids with
  | nil =>
    intro st c hc
    exact absurd hc (List.not_mem_nil c)
  | cons c0 cs ihl =>
    intro st c hc hm
    rcases List.mem_cons.mp hc with hc0 | hc'
    · subst hc0
      have h1 : (alookup (addInDependencyOrder p f c st).idRemap c).isSome = true :=
        addInDependencyOrder_records p f hf c st hm
      exact (foldAddInDep_state p f cs _).2.2 c h1
    · have hm' : isMember (addInDependencyOrder p f c0 st).ct c = true := by
        rw [(addInDependencyOrder_state p f c0 st).2.1 c]
        exact hm
      exact ihl _ c hc' hm'

/-- Appending a well-formed application event to a state preserves the merge
invariant: the event's remap snapshot is the current table, its deps (when
the loop had fuel) are already in that table, and the table gains exactly
the member's fresh identifier. -/
theorem mergeInv_extend (st : MergeState) (ct' : CTState) (ev : ApplyEvent)
    (n : Nat) (mid nid : String)
    (hmid : ev.memberId = mid)
    (hnid : ev.newId = nid)
    (htree : ct'.tree = st.ct.tree)
    (hmem : ∀ d, isMember ct' d = isMember st.ct d)
    (hok : EventOK ev)
    (hremap : ev.remapAt = st.idRemap)
    (hdeps : 1 ≤ ev.depFuel →
        ∀ d ∈ (alookup st.ct.tree ev.memberId).getD [],
          isMember st.ct d = true → (alookup st.idRemap d).isSome = true)
    (hinv : MergeInv st) :
    MergeInv { ct := ct', idRemap := aset st.idRemap mid nid
             , events := st.events ++ [ev], nextId := n } := by
  subst hmid
  subst hnid
  constructor
  · intro k v hkv
    rcases mem_aset _ _ _ _ hkv with hold | hnew
    · rcases hinv.1 k v hold with ⟨e0, he0, hf1, hf2⟩
      exact ⟨e0, List.mem_append_left _ he0, hf1, hf2⟩
    · have hk : k = ev.memberId := congrArg Prod.fst hnew
      have hv : v = ev.newId := congrArg Prod.snd hnew
      exact ⟨ev, List.mem_append_right _ (List.mem_singleton.mpr rfl),
        hk.symm, hv.symm⟩
  · intro j e he
    rw [List.getElem?_append] at he
    by_cases hj : j < st.events.length
    · rw [if_pos hj] at he
      obtain ⟨hok0, hdep0, hchain0⟩ := hinv.2 j e he
      refine ⟨hok0, ?_, ?_⟩
      · intro hfe d hd hm
        rw [htree] at hd
        rw [hmem d] at hm
        exact hdep0 hfe d hd hm
      · intro d v hdv
        rcases hchain0 d v hdv with ⟨i, hij, e', he', hg1, hg2⟩
        refine ⟨i, hij, e', ?_, hg1, hg2⟩
        rw [List.getElem?_append, if_pos (lt_trans hij hj)]
        exact he'
    · rw [if_neg hj] at he
      cases hd0 : j - st.events.length with
      | zero =>
        rw [hd0] at he
        have hee : ev = e := by simpa using he
        subst hee
        refine ⟨hok, ?_, ?_⟩
        · intro hfe d hd hm
          rw [htree] at hd
          rw [hmem d] at hm
          rw [hremap]
          exact hdeps hfe d hd hm
        · intro d v hdv
          rw [hremap] at hdv
          rcases hinv.1 d v (alookup_mem _ _ _ hdv) with ⟨e0, he0, hg1, hg2⟩
          rcases List.get?_of_mem he0 with ⟨i, hi⟩
          have hi' : st.events[i]? = some e0 := by
            rw [← List.get?_eq_getElem?]
            exact hi
          have hilen : i < st.events.length := (List.getElem?_eq_some.mp hi').1
          refine ⟨i, by omega, e0, ?_, hg1, hg2⟩
          rw [List.getElem?_append, if_pos hilen]
          exact hi'
      | succ m =>
        rw [hd0] at he
        simp at he

/-- `applyMember` preserves the merge invariant, given that — when its
dependency loop still had fuel — every member-dependency of the applied
member is already recorded in the Identifier Remap Table. -/
theorem applyMember_inv (p : MergeParams) (f : Nat) (id : String)
    (st : MergeState)
    (hpre : 1 ≤ f → ∀ d ∈ (alookup st.ct.tree id).getD [],
        isMember st.ct d = true → (alookup st.idRemap d).isSome = true)
    (hinv : MergeInv st) : MergeInv (applyMember p f id st) := by
  unfold applyMember
  cases h1 : alookup st.ct.blockMap id with
  | some sb =>
    simp only [applyBlockMember]
    refine mergeInv_extend st _ _ _ _ _ ?_ ?_ ?_ ?_ ?_ ?_ ?_ hinv
    · rfl
    · rfl
    · rfl
    · intro d
      exact isMember_aset_block st.ct id _ d (by rw [h1]; rfl)
    · rfl
    · rfl
    · exact hpre
  | none =>
    cases h2 : alookup st.ct.elemMap id with
    | some elem =>
      simp only [applyElemMember]
      refine mergeInv_extend st _ _ _ _ _ ?_ ?_ ?_ ?_ ?_ ?_ ?_ hinv
      · rfl
      · rfl
      · rfl
      · intro d
        exact isMember_aset_elem st.ct id _ d (by rw [h2]; rfl)
      · rfl
      · rfl
      · exact hpre
    | none => exact hinv

/-- `addInDependencyOrder` preserves the merge invariant: the recursive
dependency pass records every member-dependency before the member itself is
applied. -/
theorem addInDependencyOrder_inv (p : MergeParams) :
    ∀ (fuel : Nat) (id : String) (st : MergeState),
      MergeInv st → MergeInv (addInDependencyOrder p fuel id st) := by
  intro fuel
  induction fuel with
  | zero => intro id st h; exact h
  | succ f ih =>
    have hfoldinv : ∀ (ids : List String) (st : MergeState), MergeInv st →
        MergeInv (List.foldl (fun st c => addInDependencyOrder p f c st) st ids) := by
      intro ids
      induction ids with
      | nil => intro st h; exact h
      | cons c cs ihl => intro st h; exact ihl _ (ih c st h)
    intro id st h
    cases ht : alookup st.ct.tree id with
    | some childIds =>
      have heq : addInDependencyOrder p (f + 1) id st
          = applyMember p f id
              (List.foldl (fun st c => addInDependencyOrder p f c st) st childIds) := by
        rw [addInDependencyOrder, ht]
      rw [heq]
      apply applyMember_inv
      · intro hf d hd hm
        rw [(foldAddInDep_state p f childIds st).1, ht] at hd
        rw [(foldAddInDep_state p f childIds st).2.1 d] at hm
        exact foldAddInDep_recordsAll p f hf childIds st d hd hm
      · exact hfoldinv childIds st h
    | none =>
      have heq : addInDependencyOrder p (f + 1) id st = applyMember p f id st := by
        rw [addInDependencyOrder, ht]
      rw [heq]
      apply applyMember_inv
      · intro hf d hd hm
        rw [ht] at hd
        exact absurd hd (List.not_mem_nil d)
      · exact h

/-- The root loop preserves the merge invariant. -/
theorem addDeps_inv (p : MergeParams) (fuel : Nat) :
    ∀ (ids : List String) (st : MergeState),
      MergeInv st → MergeInv (addDeps p fuel ids st) := by
  intro ids
  induction ids with
  | nil => intro st h; exact h
  | cons c cs ihl =>
    intro st h
    exact ihl _ (addInDependencyOrder_inv p fuel c st h)

/-- The empty starting state satisfies the merge invariant. -/
theorem mergeInv_init (ct : CTState) (n : Nat) :
    MergeInv { ct := ct, idRemap := [], events := [], nextId := n } := by
  constructor
  · intro k v h
    simp at h
  · intro j e he
    simp at he

/-- `_mergeSnapshotToCurDoc` establishes the merge invariant. -/
theorem mergeSnapshotToCurDoc_inv (p : MergeParams) (conv : Point → Point)
    (elementsBound : Bound) (fuel : Nat) (snapshot : SliceSnapshot)
    (point? : Option Point) :
    MergeInv (mergeSnapshotToCurDoc p conv elementsBound fuel snapshot point?) :=
  addDeps_inv p fuel _ _ (mergeInv_init _ _)

/-- C1: whenever the dependency-ordered merge applies a group-like member
(any application whose dependency loop did not exhaust the artificial fuel
bound — the source's recursion is unbounded, so this covers every
application of a run of the source), (1) every dependency of the container
recorded in the Container Dependency Map that is a member of the snapshot
already has its new live identifier in the Identifier Remap Table as it
stood at the moment of the application, (2) every entry of that table
snapshot — in particular each such dependency's — was recorded by an
application logged strictly earlier than the container's, (3) every child-id
key the container carries at the application is a recorded new live
identifier, and (4) every original child key the table resolves survives,
remapped, in the applied child-id set — so the single-member apply never
sees an unresolved snapshot-local identifier: unresolved references are
remapped or deleted before the apply. -/
theorem merge_dependency_order (p : MergeParams) (conv : Point → Point)
    (elementsBound : Bound) (fuel : Nat) (snapshot : SliceSnapshot)
    (point? : Option Point) (j : Nat) (e : ApplyEvent)
    (he : (mergeSnapshotToCurDoc p conv elementsBound fuel
        snapshot point?).events[j]? = some e)
    (_hg : e.groupLike = true)
    (hf : 1 ≤ e.depFuel) :
    (∀ d ∈ (alookup (mergeSnapshotToCurDoc p conv elementsBound fuel
          snapshot point?).ct.tree e.memberId).getD [],
        isMember (mergeSnapshotToCurDoc p conv elementsBound fuel
          snapshot point?).ct d = true →
        (alookup e.remapAt d).isSome = true)
    ∧ (∀ d v, alookup e.remapAt d = some v →
        ∃ i : Nat, i < j
          ∧ ∃ e', (mergeSnapshotToCurDoc p conv elementsBound fuel
              snapshot point?).events[i]? = some e'
            ∧ e'.memberId = d ∧ e'.newId = v)
    ∧ (∀ k ∈ e.childKeys, ∃ c, (c, k) ∈ e.remapAt)
    ∧ (∀ c ∈ e.preKeys, ∀ v, alookup e.remapAt c = some v → v ∈ e.childKeys) := by
  obtain ⟨hok, hdeps, hchain⟩ :=
    (mergeSnapshotToCurDoc_inv p conv elementsBound fuel snapshot point?).2 j e he
  refine ⟨hdeps hf, hchain, ?_, ?_⟩
  · intro k hk
    rw [hok] at hk
    rcases List.mem_filterMap.mp hk with ⟨c, _, hc⟩
    exact ⟨c, alookup_mem _ _ _ hc⟩
  · intro c hc v hv
    rw [hok]
    exact List.mem_filterMap.mpr ⟨c, hc, hv⟩

/-- C1 witness: merging a frame with one claimed child applies the child
first; at the frame's application (the second logged event) its dependency
`c1` is already in the Identifier Remap Table, that entry was written by the
strictly earlier application of `c1`, and the frame's child-id set carries
exactly the remapped key. -/
theorem merge_dependency_order_witness :
    mergeC1.events[1]? = some eventC1
    ∧ eventC1.groupLike = true
    ∧ 1 ≤ eventC1.depFuel
    ∧ ((∀ d ∈ (alookup mergeC1.ct.tree eventC1.memberId).getD [],
          isMember mergeC1.ct d = true →
          (alookup eventC1.remapAt d).isSome = true)
      ∧ (∀ d v, alookup eventC1.remapAt d = some v →
          ∃ i : Nat, i < 1
            ∧ ∃ e', mergeC1.events[i]? = some e'
              ∧ e'.memberId = d ∧ e'.newId = v)
      ∧ (∀ k ∈ eventC1.childKeys, ∃ c, (c, k) ∈ eventC1.remapAt)
      ∧ (∀ c ∈ eventC1.preKeys, ∀ v,
          alookup eventC1.remapAt c = some v → v ∈ eventC1.childKeys)) :=
  ⟨by decide, rfl, by decide,
    merge_dependency_order pEx (fun pt => pt) ⟨0, 0, 0, 0⟩ 3 snapshotC1
      (some ⟨0, 0⟩) 1 eventC1 (by decide) rfl (by decide)⟩

/-- The `walkStep` fold either keeps its accumulator (when every scanned
area is at most the accumulator's size) or returns the first scanned member
strictly exceeding everything before it and at least everything after it. -/
theorem walk_foldl_spec :
    ∀ (l : List (String × Int)) (cur : Option (Int × String)),
      (l.foldl walkStep cur = cur ∧ ∀ q ∈ l, q.2 ≤ curSize cur)
      ∨ (∃ l1 i a l2, l = l1 ++ (i, a) :: l2
          ∧ l.foldl walkStep cur = some (a, i)
          ∧ curSize cur < a
          ∧ (∀ q ∈ l1, q.2 < a)
          ∧ (∀ q ∈ l2, q.2 ≤ a)) := by
  intro l
  induction l with
  | nil => intro cur; exact Or.inl ⟨rfl, by simp⟩
  | cons p rest ih =>
    intro cur
    by_cases hp : curSize cur < p.2
    · have hstep : walkStep cur p = some (p.2, p.1) := by
        unfold walkStep
        rw [if_pos]
        exact hp
      rw [List.foldl_cons, hstep]
      rcases ih (some (p.2, p.1)) with ⟨heq, hall⟩ | ⟨l1, i, a, l2, hsplit, heq, hlt, h1, h2⟩
      · refine Or.inr ⟨[], p.1, p.2, rest, by simp, ?_, hp, by simp, ?_⟩
        · rw [heq]
        · intro q hq
          exact hall q hq
      · have hlt' : p.2 < a := by simpa [curSize] using hlt
        refine Or.inr ⟨p :: l1, i, a, l2, by rw [hsplit]; rfl, heq, ?_, ?_, h2⟩
        · exact lt_trans hp hlt'
        · intro q hq
          rcases List.mem_cons.mp hq with hq | hq
          · rw [hq]; exact hlt'
          · exact h1 q hq
    · have hstep : walkStep cur p = cur := by
        unfold walkStep
        rw [if_neg]
        exact hp
      rw [List.foldl_cons, hstep]
      rcases ih cur with ⟨heq, hall⟩ | ⟨l1, i, a, l2, hsplit, heq, hlt, h1, h2⟩
      · refine Or.inl ⟨heq, ?_⟩
        intro q hq
        rcases List.mem_cons.mp hq with hq | hq
        · rw [hq]; exact le_of_not_lt hp
        · exact hall q hq
      · refine Or.inr ⟨p :: l1, i, a, l2, by rw [hsplit]; rfl, heq, hlt, ?_, h2⟩
        intro q hq
        rcases List.mem_cons.mp hq with hq | hq
        · rw [hq]; exact lt_of_le_of_lt (le_of_not_lt hp) hlt
        · exact h1 q hq

/-- C4: when the largest-member scan of a snapshot selects a member, that
member is the one at the first scan index achieving the maximal positive
area: every earlier scanned member has a strictly smaller area and no later
member's area exceeds it (ties never replace the current winner under the
strict comparison). -/
theorem walk_largest_first_max (s : SliceSnapshot) (a : Int) (i : String)
    (h : walkLargest s = some (a, i)) :
    0 < a
    ∧ ∃ l1 l2, scanBlocks s.content = l1 ++ (i, a) :: l2
        ∧ (∀ q ∈ l1, q.2 < a)
        ∧ (∀ q ∈ l2, q.2 ≤ a) := by
  unfold walkLargest at h
  rcases walk_foldl_spec (scanBlocks s.content) none with ⟨heq, _⟩
    | ⟨l1, i', a', l2, hsplit, heq, hlt, h1, h2⟩
  · rw [heq] at h
    cases h
  · rw [heq] at h
    cases h
    exact ⟨hlt, l1, l2, hsplit, h1, h2⟩

/-- C4 witness: scanning areas 10, 30, 30, 20 selects the first member of
area 30 and its decomposition certificate. -/
theorem walk_largest_first_max_witness :
    walkLargest snapshotC4 = some (30, "e2")
    ∧ (0 < (30 : Int)
      ∧ ∃ l1 l2, scanBlocks snapshotC4.content = l1 ++ ("e2", 30) :: l2
          ∧ (∀ q ∈ l1, q.2 < 30)
          ∧ (∀ q ∈ l2, q.2 ≤ 30)) :=
  ⟨by decide, walk_largest_first_max snapshotC4 30 "e2" (by decide)⟩

/-- C5: a same-document page-mode block drop whose would-be neighbour at the
insertion index is the snapshot's first unit (placement `after`), or whose
neighbour before the insertion index is the snapshot's last unit (placement
`before`), is a silent no-op: `_onPageDrop` issues no mutation at all. -/
theorem onPageDrop_same_place_noop (env : Env) (fuel : Nat) (dropId : String)
    (drag : DragPayload) (edge : String) (snapshot : SliceSnapshot)
    (result : DropResult) (first : BlockSnapshot) (rest : List BlockSnapshot)
    (parent : String)
    (hs : drag.snapshot = some snapshot)
    (hc : snapshot.content = first :: rest)
    (hr : getDropResult env fuel dropId (some snapshot) drag.fromDocId edge = some result)
    (hm : drag.fromMode ≠ "gfx")
    (hp : pageDropParent env result = some parent)
    (hnn : ¬ (env.store.flavourOf parent = "affine:note"
            ∧ first.flavour = "affine:note"))
    (hdoc : drag.fromDocId = some env.docId)
    (hpos : (result.placement = Placement.after
              ∧ getAt? (env.store.childrenOf parent)
                  (pageDropIndex env result parent) = some first.id)
          ∨ (result.placement = Placement.before
              ∧ getAt? (env.store.childrenOf parent)
                  (pageDropIndex env result parent - 1)
                = some (lastId snapshot.content))) :
    onPageDrop env fuel dropId drag edge = [] := by
  have hcond : (drag.fromDocId = some env.docId
        ∧ result.placement = Placement.after
        ∧ getAt? (env.store.childrenOf parent)
            (pageDropIndex env result parent) = some first.id)
      ∨ (result.placement = Placement.before
        ∧ getAt? (env.store.childrenOf parent)
            (pageDropIndex env result parent - 1)
          = some (lastId snapshot.content)) := by
    rcases hpos with ⟨h1, h2⟩ | h
    · exact Or.inl ⟨hdoc, h1, h2⟩
    · exact Or.inr h
  rw [hc] at hcond
  simp only [onPageDrop, hs, hr, hc, hp]
  rw [if_neg (fun h => hm h.1)]
  rw [if_neg (fun h => hm h.1)]
  rw [if_neg hnn]
  rw [if_pos hcond]

/-- C5 witness: dropping the paragraph `p2` right after its preceding
sibling `p1` (its current position) issues no mutation. -/
theorem onPageDrop_same_place_noop_witness :
    onPageDrop envC5 5 "p1" dragC5 "bottom" = [] :=
  onPageDrop_same_place_noop envC5 5 "p1" dragC5 "bottom" snapC5 resultC5
    (.mk "p2" "affine:paragraph" noProps []) [] "note1"
    rfl rfl (by decide) (by decide) (by decide) (by decide) rfl
    (Or.inl ⟨rfl, by decide⟩)

/-- C6: a page-mode drop of a snapshot whose first unit is a note, landing
in a note parent, merges rather than nests: when the identifiers differ the
dragged note's children are applied under the target note at the computed
index and the dragged note shell is then deleted (when the store still holds
it); when the dragged and target notes share one identifier nothing is
mutated. -/
theorem onPageDrop_note_merge (env : Env) (fuel : Nat) (dropId : String)
    (drag : DragPayload) (edge : String) (snapshot : SliceSnapshot)
    (result : DropResult) (first : BlockSnapshot) (rest : List BlockSnapshot)
    (parent : String)
    (hs : drag.snapshot = some snapshot)
    (hc : snapshot.content = first :: rest)
    (hr : getDropResult env fuel dropId (some snapshot) drag.fromDocId edge = some result)
    (hm : drag.fromMode ≠ "gfx")
    (hp : pageDropParent env result = some parent)
    (hpn : env.store.flavourOf parent = "affine:note")
    (hfn : first.flavour = "affine:note") :
    (parent = first.id → onPageDrop env fuel dropId drag edge = [])
    ∧ (parent ≠ first.id →
        onPageDrop env fuel dropId drag edge
          = Mutation.applySlice (first.children.map BlockSnapshot.id) parent
              (some (pageDropIndex env result parent))
            :: (if env.store.hasBlock first.id then [Mutation.deleteBlock first.id]
                else [])) := by
  have hbase : onPageDrop env fuel dropId drag edge
      = if parent ≠ first.id
        then onDropNoteOnNote env snapshot parent (pageDropIndex env result parent)
        else [] := by
    simp only [onPageDrop, hs, hr, hc, hp]
    rw [if_neg (fun h => hm h.1)]
    rw [if_neg (fun h => hm h.1)]
    rw [if_pos ⟨hpn, hfn⟩]
  constructor
  · intro heq
    rw [hbase, if_neg (fun hne => hne heq)]
  · intro hne
    rw [hbase, if_pos hne]
    simp only [onDropNoteOnNote, hc]

/-- C6 witness: dropping the note `noteB` onto the distinct note `noteA`
(placement `in`, index 0) applies `noteB`'s children under `noteA` and then
deletes the `noteB` shell. -/
theorem onPageDrop_note_merge_witness :
    onPageDrop envC6 5 "noteA" dragC6 "bottom"
      = [Mutation.applySlice ["p1"] "noteA" (some 0),
         Mutation.deleteBlock "noteB"] :=
  (onPageDrop_note_merge envC6 5 "noteA" dragC6 "bottom" snapC6 resultC6
    (.mk "noteB" "affine:note" noProps [.mk "p1" "affine:paragraph" noProps []])
    [] "noteA" rfl rfl (by decide) (by decide) (by decide) rfl rfl).2 (by decide)

/-- C7: a drop on the trailing edge of a list item whose snapshot fully
validates as list children yields an `in` decision on the hovered item (the
spec-modelled application of that decision appends at the end of the hovered
item's children); when not every unit validates, the decision falls back to
the ancestor returned by `_getFallbackInsertPlace` — the nearest ancestor
whose parent is a note — with placement `after`. -/
theorem getDropResult_list_edge (env : Env) (fuel : Nat) (dropId : String)
    (snapshot : SliceSnapshot) (fromDocId : Option String)
    (hne : snapshot.content.length ≠ 0)
    (hfrom : fromDocId ≠ none)
    (hlist : env.store.flavourOf dropId = "affine:list") :
    (snapshot.content.all (fun b => env.safeValidate b.flavour "affine:list") = true →
      getDropResult env fuel dropId (some snapshot) fromDocId "right"
        = some { placement := Placement.inside
               , rect := Rect.fromLWTH ((env.domRectOf dropId).left + env.paddingLeft)
                   ((env.domRectOf dropId).width - env.paddingLeft)
                   ((env.domRectOf dropId).top + (env.domRectOf dropId).height)
                   (3 * env.scale)
               , modelId := dropId }
      ∧ ∀ units : List String,
          applyInsidePlacement (env.store.childrenOf dropId) units
            = env.store.childrenOf dropId ++ units)
    ∧ (snapshot.content.all (fun b => env.safeValidate b.flavour "affine:list") = false →
      ∀ fb, getFallbackInsertPlace env fuel dropId = some fb →
        getDropResult env fuel dropId (some snapshot) fromDocId "right"
          = some { placement := Placement.after
                 , rect := Rect.fromLWTH (env.viewRectOf fb).left
                     (env.viewRectOf fb).width
                     ((env.viewRectOf fb).top + (env.viewRectOf fb).height)
                     (3 * env.scale)
                 , modelId := fb }) := by
  have hguard : ¬ (snapshot.content.length = 0 ∨ fromDocId = none
      ∨ env.store.flavourOf dropId = "affine:database") := by
    push_neg
    refine ⟨hne, hfrom, ?_⟩
    rw [hlist]
    decide
  constructor
  · intro hall
    constructor
    · simp only [getDropResult]
      rw [if_neg hguard, if_pos ⟨by trivial, hlist⟩, if_pos hall]
    · intro units
      rfl
  · intro hall fb hfb
    simp only [getDropResult]
    rw [if_neg hguard, if_pos ⟨by trivial, hlist⟩, hall]
    simp only [Bool.false_eq_true, if_false, hfb]

/-- C7 witness: a list drop on the trailing edge of `l1` yields the `in`
decision; a paragraph drop falls back to `para1`, the nearest ancestor whose
parent is the note `note1`, with placement `after`. -/
theorem getDropResult_list_edge_witness :
    getDropResult envC7 5 "l1" (some snapshotC7list) (some "doc1") "right"
      = some { placement := Placement.inside, rect := ⟨26, 20, 74, 3⟩
             , modelId := "l1" }
    ∧ getDropResult envC7 5 "l1" (some snapshotC7para) (some "doc1") "right"
      = some { placement := Placement.after, rect := ⟨0, 40, 100, 3⟩
             , modelId := "para1" } :=
  ⟨((getDropResult_list_edge envC7 5 "l1" snapshotC7list (some "doc1")
      (by decide) (by decide) rfl).1 (by decide)).1,
    (getDropResult_list_edge envC7 5 "l1" snapshotC7para (some "doc1")
      (by decide) (by decide) rfl).2 (by decide) "para1" (by decide)⟩

/-- C8 counterexample: the claim states that when some unit validates as
neither a surface child nor a page child, the new default-sized note is
created with its top-left at the drop point (the client point put once
through the client-to-model conversion) and the full snapshot is applied
inside it.  At this concrete input — a conversion that shifts by one and a
single database block that validates nowhere — the code creates the note at
the twice-converted point and applies the empty note-valid filtering of the
content, so the claimed action list is not produced. -/
theorem dropAsGfxBlock_counterexample :
    ¬ (dropAsGfxBlock validateNothing convEx (fun _ => 0) (fun _ => 0) 800 92
        "surface" "root-block" snapshotC8 ⟨10, 20⟩
      = [GfxAction.addNoteBlock
            (Bound.mk (convEx ⟨10, 20⟩).x (convEx ⟨10, 20⟩).y 800 92) "root-block",
         GfxAction.dropSlice snapshotC8.content newNoteId]) := by
  intro h
  have h0 : dropAsGfxBlock validateNothing convEx (fun _ => 0) (fun _ => 0) 800 92
      "surface" "root-block" snapshotC8 ⟨10, 20⟩
      = [GfxAction.addNoteBlock (Bound.mk 12 22 800 92) "root-block",
         GfxAction.dropSlice [] newNoteId] := rfl
  rw [h0] at h
  simp [convEx, snapshotC8] at h

/-- C8 (amended): when some unit of the snapshot validates as neither a
surface child nor a page child, a single new note with the fixed default
width and height is created whose top-left is the client-to-model conversion
applied to the already-converted drop point (the conversion is applied a
second time on this branch), and then the snapshot restricted to the units
that validate as note children is applied inside that new note. -/
theorem dropAsGfxBlock_wraps_note_filtered (validate : String → String → Bool)
    (conv : Point → Point) (cw ch : String → Int) (W H : Int)
    (surfaceId rootId : String) (s : SliceSnapshot) (pt : Point)
    (h : (s.content.filter (fun b =>
        !validate b.flavour "affine:surface"
          && !validate b.flavour "affine:page")).length ≠ 0) :
    dropAsGfxBlock validate conv cw ch W H surfaceId rootId s pt
      = [GfxAction.addNoteBlock
            (Bound.mk (conv (conv pt)).x (conv (conv pt)).y W H) rootId,
         GfxAction.dropSlice
            (s.content.filter (fun b => validate b.flavour "affine:note"))
            newNoteId] := by
  simp only [dropAsGfxBlock]
  rw [if_neg h]

/-- C8 witness: the amended statement evaluated at the counterexample's
input. -/
theorem dropAsGfxBlock_wraps_note_filtered_witness :
    dropAsGfxBlock validateNothing convEx (fun _ => 0) (fun _ => 0) 800 92
        "surface" "root-block" snapshotC8 ⟨10, 20⟩
      = [GfxAction.addNoteBlock (Bound.mk 12 22 800 92) "root-block",
         GfxAction.dropSlice [] newNoteId] := by
  have h := dropAsGfxBlock_wraps_note_filtered validateNothing convEx
    (fun _ => 0) (fun _ => 0) 800 92 "surface" "root-block" snapshotC8 ⟨10, 20⟩
    (by decide)
  exact h

/-- `Bound.moveDelta` with the rewrite's delta is the claimed relative
relocation formula. -/
theorem moveDelta_eq_relocate (b r : Bound) (pt : Point) :
    b.moveDelta (-r.x + pt.x) (-r.y + pt.y) = relocateBound r pt b := by
  unfold Bound.moveDelta relocateBound
  congr 1 <;> omega

mutual

/-- The rewrite maps every element bound of one block through `moveOf`. -/
theorem elemInfos_rewriteBlock (cw ch : String → Int) (r : Bound) (pt : Point)
    (ig : Bool) (b : BlockSnapshot) :
    elemInfosBlock (rewriteBlock cw ch r pt ig b)
      = (elemInfosBlock b).map (Option.map (moveOf r pt ig)) := by
  cases b with
  | mk bid fl props children =>
    by_cases hfl : fl = "affine:surface"
    · simp only [rewriteBlock, if_pos hfl, elemInfosBlock, List.map_append]
      congr 1
      · cases hel : props.elements with
        | none => simp
        | some l =>
          simp only [Option.map_some', Option.getD_some, List.map_map]
          apply List.map_congr_left
          intro ev _
          simp only [Function.comp_apply]
          cases hx : ev.2.xywh with
          | none => simp [hx]
          | some bd =>
            simp only [hx]
            cases ig with
            | false =>
              simp only [Bool.false_eq_true, if_false]
              rw [moveDelta_eq_relocate]
              simp [moveOf]
            | true =>
              simp [moveOf, absBound]
      · exact elemInfos_rewriteBlocks cw ch r pt ig children
    · simp only [rewriteBlock, if_neg hfl]
      cases hxy : props.xywh with
      | none => simp [elemInfosBlock, hfl]
      | some b0 => simp [elemInfosBlock, hfl]

/-- The rewrite maps every element bound of a forest through `moveOf`. -/
theorem elemInfos_rewriteBlocks (cw ch : String → Int) (r : Bound) (pt : Point)
    (ig : Bool) (bs : List BlockSnapshot) :
    elemInfosList (rewriteBlocks cw ch r pt ig bs)
      = (elemInfosList bs).map (Option.map (moveOf r pt ig)) := by
  cases bs with
  | nil => rfl
  | cons b bs' =>
    simp only [rewriteBlocks, elemInfosList, List.map_append]
    rw [elemInfos_rewriteBlock cw ch r pt ig b,
      elemInfos_rewriteBlocks cw ch r pt ig bs']

end

mutual

/-- The rewrite maps every visited block-level member of one block through
`rewriteBlockInfo`. -/
theorem blockInfos_rewriteBlock (cw ch : String → Int) (r : Bound) (pt : Point)
    (ig : Bool) (b : BlockSnapshot) :
    blockInfosBlock (rewriteBlock cw ch r pt ig b)
      = (blockInfosBlock b).map (rewriteBlockInfo cw ch (moveOf r pt ig)) := by
  cases b with
  | mk bid fl props children =>
    by_cases hfl : fl = "affine:surface"
    · simp only [rewriteBlock, if_pos hfl, blockInfosBlock]
      exact blockInfos_rewriteBlocks cw ch r pt ig children
    · simp only [rewriteBlock, if_neg hfl]
      cases hxy : props.xywh with
      | none =>
        simp [blockInfosBlock, hfl, hxy, rewriteBlockInfo]
      | some b0 =>
        simp only [blockInfosBlock, if_neg hfl, hxy, List.map_cons, List.map_nil,
          rewriteBlockInfo]
        cases hcard : isCardFlavour fl with
        | false =>
          cases ig with
          | false =>
            simp only [hcard, Bool.false_eq_true, if_false, moveOf]
            rw [moveDelta_eq_relocate]
          | true =>
            simp [hcard, moveOf, absBound]
        | true =>
          cases ig with
          | false =>
            simp only [hcard, if_true, moveOf, Bool.false_eq_true, if_false,
              resolveStyle]
            rw [moveDelta_eq_relocate]
          | true =>
            simp [hcard, moveOf, absBound, resolveStyle]

/-- The rewrite maps every visited block-level member of a forest through
`rewriteBlockInfo`. -/
theorem blockInfos_rewriteBlocks (cw ch : String → Int) (r : Bound) (pt : Point)
    (ig : Bool) (bs : List BlockSnapshot) :
    blockInfosList (rewriteBlocks cw ch r pt ig bs)
      = (blockInfosList bs).map (rewriteBlockInfo cw ch (moveOf r pt ig)) := by
  cases bs with
  | nil => rfl
  | cons b bs' =>
    simp only [rewriteBlocks, blockInfosList, List.map_append]
    rw [blockInfos_rewriteBlock cw ch r pt ig b,
      blockInfos_rewriteBlocks cw ch r pt ig bs']

end

/-- C3: `_rewriteSnapshotXYWH` is a no-op when the snapshot carries no
aggregate rectangle; otherwise, relative mode moves every member bound
`(mx, my)` to exactly `(mx - x + P.x, my - y + P.y)` against the aggregate
box `(x, y, w, h)` and destination `P`, absolute mode sets every visited
bound's position to exactly `P`, and attachment and `affine:embed-` members
additionally get the canonical card dimensions of their resolved style. -/
theorem rewriteSnapshotXYWH_correct (cw ch : String → Int) (s : SliceSnapshot)
    (pt : Point) :
    (getSnapshotRect s = none → ∀ ig, rewriteSnapshotXYWH cw ch s pt ig = s)
    ∧ (∀ r, getSnapshotRect s = some r →
        (elemInfosList (rewriteSnapshotXYWH cw ch s pt false).content
          = (elemInfosList s.content).map (Option.map (relocateBound r pt)))
        ∧ (elemInfosList (rewriteSnapshotXYWH cw ch s pt true).content
          = (elemInfosList s.content).map (Option.map (absBound pt)))
        ∧ (blockInfosList (rewriteSnapshotXYWH cw ch s pt false).content
          = (blockInfosList s.content).map (rewriteBlockInfo cw ch (relocateBound r pt)))
        ∧ (blockInfosList (rewriteSnapshotXYWH cw ch s pt true).content
          = (blockInfosList s.content).map (rewriteBlockInfo cw ch (absBound pt)))) := by
  constructor
  · intro h ig
    simp [rewriteSnapshotXYWH, h]
  · intro r h
    have hrw : ∀ ig, rewriteSnapshotXYWH cw ch s pt ig
        = ⟨rewriteBlocks cw ch r pt ig s.content⟩ := by
      intro ig
      simp [rewriteSnapshotXYWH, h]
    have hmvf : moveOf r pt false = relocateBound r pt := rfl
    have hmvt : moveOf r pt true = absBound pt := rfl
    refine ⟨?_, ?_, ?_, ?_⟩
    · rw [hrw, elemInfos_rewriteBlocks, hmvf]
    · rw [hrw, elemInfos_rewriteBlocks, hmvt]
    · rw [hrw, blockInfos_rewriteBlocks, hmvf]
    · rw [hrw, blockInfos_rewriteBlocks, hmvt]

/-- C3 witness: the rewrite correctness evaluated on a concrete snapshot
with aggregate box `(0, 0, 15, 15)` and destination `(30, 40)`. -/
theorem rewriteSnapshotXYWH_correct_witness :
    getSnapshotRect snapshotC3 = some ⟨0, 0, 15, 15⟩
    ∧ ((elemInfosList (rewriteSnapshotXYWH (fun _ => 100) (fun _ => 50)
          snapshotC3 ⟨30, 40⟩ false).content
        = (elemInfosList snapshotC3.content).map
            (Option.map (relocateBound ⟨0, 0, 15, 15⟩ ⟨30, 40⟩)))
      ∧ (elemInfosList (rewriteSnapshotXYWH (fun _ => 100) (fun _ => 50)
          snapshotC3 ⟨30, 40⟩ true).content
        = (elemInfosList snapshotC3.content).map (Option.map (absBound ⟨30, 40⟩)))
      ∧ (blockInfosList (rewriteSnapshotXYWH (fun _ => 100) (fun _ => 50)
          snapshotC3 ⟨30, 40⟩ false).content
        = (blockInfosList snapshotC3.content).map
            (rewriteBlockInfo (fun _ => 100) (fun _ => 50)
              (relocateBound ⟨0, 0, 15, 15⟩ ⟨30, 40⟩)))
      ∧ (blockInfosList (rewriteSnapshotXYWH (fun _ => 100) (fun _ => 50)
          snapshotC3 ⟨30, 40⟩ true).content
        = (blockInfosList snapshotC3.content).map
            (rewriteBlockInfo (fun _ => 100) (fun _ => 50) (absBound ⟨30, 40⟩)))) :=
  ⟨rfl, (rewriteSnapshotXYWH_correct (fun _ => 100) (fun _ => 50)
      snapshotC3 ⟨30, 40⟩).2 ⟨0, 0, 15, 15⟩ rfl⟩

end DragWatcher
